import Mathlib

/-!
Verification development for the EyesOpen digital-image forensics pipeline
(`src/image_analysis.py`, `src/main.py`).

Shallow embedding conventions:
* An 8-bit image buffer is a nested list of natural-number samples:
  `ColorImg` is height × width × channels, `GrayImg` is height × width.
  The uint8 range invariant (`≤ 255`) appears as explicit hypotheses or
  explicit `% 256` where numpy arithmetic wraps.
* External library primitives (JPEG codec, colormap LUT, BGR→gray
  conversion, skimage's Gabor kernels and LBP, FFT/DWT numerics, Gaussian
  blur, Canny) are parameters of the embedded functions: the repository's
  own logic — control flow, the quality ladder, elementwise arithmetic,
  median/threshold computation, degeneracy checks, min-max normalization,
  stacking — is embedded concretely.
* Python floats are modelled as exact rationals (`ℚ`); `int()` on a
  non-negative float is `Int.floor`.
* A Python function that returns `None` on failure is embedded as an
  `Option`-valued function; a raised-then-caught exception is an inner
  `Except` computation wrapped by a catch that maps errors to `none`.
-/

/-- Height × width × channels buffer of 8-bit samples (a rank-3 numpy array). -/
abbrev ColorImg : Type := List (List (List Nat))

/-- Height × width buffer of 8-bit samples (a rank-2 numpy array). -/
abbrev GrayImg : Type := List (List Nat)

/-- Rank-2 float array, modelled with exact rationals. -/
abbrev QMat : Type := List (List ℚ)

/-- A numpy array as stored in the panel list of `process_images`:
either a rank-2 grayscale array or a rank-3 color array. -/
inductive NDArray : Type
  | gray (g : GrayImg)
  | color (c : ColorImg)
  deriving DecidableEq

/-- The Python argument passed to an analyzer that validates its input:
`None`, a non-`np.ndarray` value, or an actual image array. -/
inductive PyInput : Type
  | none_
  | notArray
  | array (img : ColorImg)
  deriving DecidableEq

/-- Python exceptions raised by the analyzers' validation code. -/
inductive PyError : Type
  | valueError (msg : String)
  | typeError (msg : String)
  deriving DecidableEq

/-- Method tag for skimage's `local_binary_pattern` (the source passes
`method="uniform"`). -/
inductive LBPMethod : Type
  | uniform
  deriving DecidableEq

/-! ## Generic elementwise machinery over nested lists -/

/-- Elementwise unary map over a rank-3 buffer. -/
def ewise1 (f : Nat → Nat) (a : ColorImg) : ColorImg :=
  a.map (fun row => row.map (fun px => px.map f))

/-- Elementwise binary combination of two rank-3 buffers
(numpy broadcasting on equal shapes). -/
def ewise2 (f : Nat → Nat → Nat) (a b : ColorImg) : ColorImg :=
  List.zipWith (fun r1 r2 =>
    List.zipWith (fun p1 p2 => List.zipWith f p1 p2) r1 r2) a b

/-- Sample of a rank-3 buffer at row `y`, column `x`, channel `ch`
(default 0 out of range). -/
def sampleD (a : ColorImg) (y x ch : Nat) : Nat :=
  ((a.getD y []).getD x []).getD ch 0

/-- The index triple `(y, x, ch)` addresses a real sample of `a`. -/
def InBounds (a : ColorImg) (y x ch : Nat) : Prop :=
  y < a.length ∧ x < (a.getD y []).length ∧ ch < ((a.getD y []).getD x []).length

/-- Minimum of a list of rationals (`np.min`); 0 on the empty list,
which the embedded code never consults. -/
def listMin : List ℚ → ℚ
  | [] => 0
  | [x] => x
  | x :: y :: xs => min x (listMin (y :: xs))

/-- Maximum of a list of rationals (`np.max`); 0 on the empty list. -/
def listMax : List ℚ → ℚ
  | [] => 0
  | [x] => x
  | x :: y :: xs => max x (listMax (y :: xs))

/-- One entry of OpenCV's `cv2.normalize(..., alpha=255, beta=0,
NORM_MINMAX, dtype=CV_8U)`: affine stretch sending `lo ↦ 0`, `hi ↦ 255`,
rounded and saturated to uint8. -/
def stretch255 (lo hi v : ℚ) : Nat :=
  min 255 (round ((v - lo) * 255 / (hi - lo))).toNat

/-! ## Error-Level Analysis — `image_analysis.perform_ela` -/

/-- One entry of `cv2.absdiff` on uint8 buffers: `|a - b|`
(no saturation can occur since both operands are below 256). -/
def absdiffU8 (a b : Nat) : Nat := max a b - min a b

/-- The `* 20` amplification from `perform_ela`, performed by numpy in
uint8 arithmetic: the product wraps modulo 256. -/
def amp20 (v : Nat) : Nat := 20 * v % 256

/-- One quality rung of the ELA loop: the amplified absolute difference
`cv2.absdiff(image, compressed_image) * 20` between the original and one
re-encoded/decoded copy. -/
def elaDiff (img comp : ColorImg) : ColorImg :=
  ewise1 amp20 (ewise2 absdiffU8 img comp)

/-- Embedding of `image_analysis.perform_ela`.
`roundtrip img q` models `cv2.imdecode(cv2.imencode(".jpg", img,
[IMWRITE_JPEG_QUALITY, q]))`; `none` models a codec exception or a failed
decode (which would make `cv2.absdiff` raise). `jet` models
`cv2.applyColorMap(·, COLORMAP_JET)`. The `None`/non-array validation
raises are caught by the function's own `except` clause, so both map to
`none`; likewise any codec failure inside the quality loop. -/
def perform_ela (roundtrip : ColorImg → Nat → Option ColorImg)
    (jet : ColorImg → ColorImg) : PyInput → Option ColorImg
  | .none_ => none
  | .notArray => none
  | .array img =>
    match roundtrip img 75, roundtrip img 85, roundtrip img 95 with
    | some c75, some c85, some c95 =>
      some (jet (ewise2 max (ewise2 max (elaDiff img c75) (elaDiff img c85))
        (elaDiff img c95)))
    | _, _, _ => none

/-! ## Gabor filtering — `image_analysis.perform_gabor_filtering`

skimage's `gabor` convolves the grayscale image with a fixed pair of
real/imaginary kernels derived from the frequency parameter, using
'reflect' boundary handling.  The kernels are external data here (lists of
`(dy, dx, weight)` taps); the convolution, the reflect extension, the
magnitude/degeneracy logic and the normalization are embedded concretely.
`sqrtQ` models the float `np.sqrt`. -/

/-- Reflect ('symmetric') boundary index folding used by
`scipy.ndimage.convolve(..., mode='reflect')`: `(d c b a | a b c d | d c b a)`.
Always lands strictly below `n` when `n > 0`. -/
def reflectIdx (n : Nat) (i : ℤ) : Nat :=
  if n = 0 then 0
  else if (i % (2 * (n : ℤ))).toNat < n then (i % (2 * (n : ℤ))).toNat
  else 2 * n - 1 - (i % (2 * (n : ℤ))).toNat

/-- The grayscale image extended to all of ℤ × ℤ by reflect boundary
handling, with per-row column folding. -/
def extendReflect (g : GrayImg) (i j : ℤ) : ℚ :=
  ((g.getD (reflectIdx g.length i) []).getD
    (reflectIdx (g.getD (reflectIdx g.length i) []).length j) 0 : ℚ)

/-- One output sample of the Gabor convolution at centre `(y, x)`. -/
def convolveAt (ker : List (ℤ × ℤ × ℚ)) (g : GrayImg) (y x : ℤ) : ℚ :=
  (ker.map (fun t => t.2.2 * extendReflect g (y + t.1) (x + t.2.1))).sum

/-- Full response plane of one Gabor kernel over the grayscale image. -/
def gaborResponse (ker : List (ℤ × ℤ × ℚ)) (g : GrayImg) : QMat :=
  (List.range g.length).map (fun y =>
    (List.range (g.headD []).length).map (fun x =>
      convolveAt ker g (y : ℤ) (x : ℤ)))

/-- The magnitude plane `np.sqrt(gabor_real**2 + gabor_imag**2)` of
`perform_gabor_filtering`, with `sqrtQ` the external float square root. -/
def gaborMag (kR kI : List (ℤ × ℤ × ℚ)) (sqrtQ : ℚ → ℚ) (g : GrayImg) : QMat :=
  List.zipWith (List.zipWith (fun a b => sqrtQ (a ^ 2 + b ^ 2)))
    (gaborResponse kR g) (gaborResponse kI g)

/-- Embedding of `image_analysis.perform_gabor_filtering`.
`cvt` models `cv2.cvtColor(·, COLOR_BGR2GRAY)`.  A `None` input returns
`none` directly.  The `size == 0` guards on the responses map to the
emptiness test; the `min == max` degeneracy test on the magnitude maps to
`listMin = listMax`; otherwise the magnitude is min-max normalized to
uint8 by `cv2.normalize(..., 255, 0, NORM_MINMAX, CV_8U)`.
(The source's `is None` guards on the skimage return values are dead
branches — `gabor` always returns arrays — and have no counterpart.) -/
def perform_gabor_filtering (cvt : ColorImg → GrayImg)
    (kR kI : List (ℤ × ℤ × ℚ)) (sqrtQ : ℚ → ℚ) :
    Option ColorImg → Option GrayImg
  | none => none
  | some img =>
    let g := cvt img
    if (gaborResponse kR g).flatten.isEmpty ∨
        (gaborResponse kI g).flatten.isEmpty then none
    else
      let mag := gaborMag kR kI sqrtQ g
      if listMin mag.flatten = listMax mag.flatten then none
      else some (mag.map (fun row =>
        row.map (stretch255 (listMin mag.flatten) (listMax mag.flatten))))

/-! ## Frequency analysis — `image_analysis.perform_frequency_analysis` -/

/-- One entry of `cv2.convertScaleAbs`: absolute value, rounded,
saturated to uint8. -/
def cvtScaleAbs (q : ℚ) : Nat := min 255 (round |q|).toNat

/-- Embedding of `image_analysis.perform_frequency_analysis`.
`fftLogMag` models `np.log(np.abs(fftshift(fft2(gray))))`, `dwtHV` models
the `(cH, cV)` detail sub-bands of `pywt.dwt2(gray, "haar")`, `resizeQ h w`
models `cv2.resize(·, (w, h))`, and `sqrtQ` the float square root; the
wavelet magnitude, the 0.5/0.5 `cv2.addWeighted` blend and
`cv2.convertScaleAbs` are embedded concretely. -/
def perform_frequency_analysis (cvt : ColorImg → GrayImg)
    (fftLogMag : GrayImg → QMat) (dwtHV : GrayImg → QMat × QMat)
    (sqrtQ : ℚ → ℚ) (resizeQ : Nat → Nat → QMat → QMat) :
    Option ColorImg → Option GrayImg
  | none => none
  | some img =>
    let g := cvt img
    let ms := fftLogMag g
    let wm := List.zipWith (List.zipWith (fun a b => sqrtQ (a ^ 2 + b ^ 2)))
      (dwtHV g).1 (dwtHV g).2
    let wmR := resizeQ ms.length (ms.headD []).length wm
    let comb := List.zipWith (List.zipWith
      (fun a b => a * (1 / 2) + b * (1 / 2) + 0)) ms wmR
    some (comb.map (fun row => row.map cvtScaleAbs))

/-! ## Local texture analysis — `image_analysis.perform_texture_analysis` -/

/-- Modelled from the spec: `utilities.normalize_gray_image` is imported by
`image_analysis.py` but `utilities.py` is not under `src/`.  Spec §4.5:
min-max stretch of the descriptor buffer to the full 8-bit range, with a
stable constant mid-gray fallback when the buffer is flat (min = max). -/
def normalize_gray_image (m : QMat) : GrayImg :=
  if listMin m.flatten = listMax m.flatten then
    m.map (fun row => row.map (fun _ => 128))
  else
    m.map (fun row => row.map (stretch255 (listMin m.flatten) (listMax m.flatten)))

/-- Embedding of `image_analysis.perform_texture_analysis`.
`lbp P R method g` models `skimage.feature.local_binary_pattern(g, P, R,
method)` (a float descriptor array); the source fixes `radius = 3` and
`n_points = 8 * radius` and method `uniform`. -/
def perform_texture_analysis (cvt : ColorImg → GrayImg)
    (lbp : Nat → Nat → LBPMethod → GrayImg → QMat) :
    Option ColorImg → Option GrayImg
  | none => none
  | some img => some (normalize_gray_image (lbp (8 * 3) 3 .uniform (cvt img)))

/-! ## Adaptive edge detection — `image_analysis.perform_advanced_edge_detection` -/

/-- Embedding of `np.median` on the flattened sample list: sort, take the
middle element (odd length) or the mean of the two middle elements (even
length). `sortNat`/`insertSorted` below realize the sort. -/
def insertSorted (x : Nat) : List Nat → List Nat
  | [] => [x]
  | y :: ys => if x ≤ y then x :: y :: ys else y :: insertSorted x ys

/-- Sorting a list of samples (ascending), by insertion. -/
def sortNat : List Nat → List Nat
  | [] => []
  | x :: xs => insertSorted x (sortNat xs)

/-- `np.median` of a sample list, as an exact rational. -/
def npMedian (l : List Nat) : ℚ :=
  if (sortNat l).length % 2 = 1 then
    ((sortNat l).getD ((sortNat l).length / 2) 0 : ℚ)
  else
    (((sortNat l).getD ((sortNat l).length / 2 - 1) 0 : ℚ) +
      ((sortNat l).getD ((sortNat l).length / 2) 0 : ℚ)) / 2

/-- Lower Canny threshold of `perform_advanced_edge_detection`:
`int(max(0, 0.7 * median_val))` over the blurred image's samples. -/
def cannyLower (samples : List Nat) : ℤ :=
  Int.floor (max 0 ((7 : ℚ) / 10 * npMedian samples))

/-- Upper Canny threshold of `perform_advanced_edge_detection`:
`int(min(255, 1.3 * median_val))` over the blurred image's samples. -/
def cannyUpper (samples : List Nat) : ℤ :=
  Int.floor (min 255 ((13 : ℚ) / 10 * npMedian samples))

/-- The body of `perform_advanced_edge_detection`'s `try` block: the two
validation `raise` statements and the happy path.  `cvt` models
`cv2.cvtColor`, `blur` models `cv2.GaussianBlur(·, (5, 5), 0)`, `canny`
models `cv2.Canny` with the two integer thresholds. -/
def edgeInner (cvt : ColorImg → GrayImg) (blur : GrayImg → GrayImg)
    (canny : GrayImg → ℤ → ℤ → GrayImg) : PyInput → Except PyError GrayImg
  | .none_ => .error (.valueError "Received a NoneType image for edge detection.")
  | .notArray => .error (.typeError "Invalid type for image. Expected np.ndarray.")
  | .array img =>
    let blurred := blur (cvt img)
    .ok (canny blurred (cannyLower blurred.flatten) (cannyUpper blurred.flatten))

/-- Embedding of `image_analysis.perform_advanced_edge_detection`: the
`try` body wrapped by its own `except Exception` clause, which logs and
returns `None` — so every raised validation error is observed by the
caller as the same `none` marker the other analyzers use. -/
def perform_advanced_edge_detection (cvt : ColorImg → GrayImg)
    (blur : GrayImg → GrayImg) (canny : GrayImg → ℤ → ℤ → GrayImg)
    (input : PyInput) : Option GrayImg :=
  match edgeInner cvt blur canny input with
  | .ok v => some v
  | .error _ => none

/-! ## The pipeline — `main.process_images` and `main.main` -/

/-- All external library primitives the five analyzers depend on,
bundled so the pipeline can be stated once. -/
structure Externals : Type where
  roundtrip : ColorImg → Nat → Option ColorImg
  jet : ColorImg → ColorImg
  cvt : ColorImg → GrayImg
  kR : List (ℤ × ℤ × ℚ)
  kI : List (ℤ × ℤ × ℚ)
  sqrtQ : ℚ → ℚ
  blur : GrayImg → GrayImg
  canny : GrayImg → ℤ → ℤ → GrayImg
  fftLogMag : GrayImg → QMat
  dwtHV : GrayImg → QMat × QMat
  resizeQ : Nat → Nat → QMat → QMat
  lbp : Nat → Nat → LBPMethod → GrayImg → QMat

/-- Embedding of `main.process_images`: run the five analyzers on the one
input image and return the six-element panel list
`[image, ela, gabor, edge, frequency, texture]`, where a failed analysis
contributes `none` in place. -/
def process_images (E : Externals) (image : ColorImg) : List (Option NDArray) :=
  let ela_image := perform_ela E.roundtrip E.jet (.array image)
  let gabor_image := perform_gabor_filtering E.cvt E.kR E.kI E.sqrtQ (some image)
  let advanced_edge_image :=
    perform_advanced_edge_detection E.cvt E.blur E.canny (.array image)
  let frequency_image := perform_frequency_analysis E.cvt E.fftLogMag E.dwtHV
    E.sqrtQ E.resizeQ (some image)
  let texture_image := perform_texture_analysis E.cvt E.lbp (some image)
  [some (.color image), ela_image.map .color, gabor_image.map .gray,
    advanced_edge_image.map .gray, frequency_image.map .gray,
    texture_image.map .gray]

/-- Replicating a grayscale panel across three channels; color panels
pass through unchanged. -/
def toColor3 : NDArray → ColorImg
  | .color c => c
  | .gray g => g.map (fun row => row.map (fun v => [v, v, v]))

/-- Modelled from the spec: `utilities.convert_to_color` is imported by
`main.py` but `utilities.py` is not under `src/`.  Spec §4.1: grayscale
buffers become 3-channel without altering luminance; an "unavailable"
marker is replaced by a placeholder buffer (policy here: a 1×1 black
pixel, brought to panel size by the subsequent resize) so grid geometry is
preserved. -/
def convert_to_color (panels : List (Option NDArray)) : List ColorImg :=
  panels.map (fun p =>
    match p with
    | some a => toColor3 a
    | none => [[[0, 0, 0]]])

/-- Modelled from the spec: a resize to given dimensions (`cv2.resize`
inside the absent `utilities.py`), realized by clamped index sampling;
only its output dimensions matter to the pipeline contracts. -/
def resizeTo (h w : Nat) (img : ColorImg) : ColorImg :=
  (List.range h).map (fun y =>
    (List.range w).map (fun x =>
      let row := img.getD (min y (img.length - 1)) []
      row.getD (min x (row.length - 1)) []))

/-- Modelled from the spec: `utilities.standardize_dimensions` is imported
by `main.py` but `utilities.py` is not under `src/`.  Spec §4.1: resize
every buffer of the sequence to the dimensions of the first (reference)
buffer. -/
def standardize_dimensions (imgs : List ColorImg) : List ColorImg :=
  match imgs with
  | [] => []
  | ref :: _ => imgs.map (resizeTo ref.length (ref.headD []).length)

/-- The six caption strings of `main.main`. -/
def annotTexts : List String :=
  [ "Original: Baseline for comparison.",
    "ELA: Bright areas may suggest tampering.",
    "Gabor: Texture patterns may indicate manipulation.",
    "Edges: Multiple edges can suggest splicing.",
    "Frequency: Inconsistencies may suggest tampering.",
    "Texture: Inconsistencies may suggest editing." ]

/-- `np.hstack` on a list of rank-2 arrays: concatenate along axis 1. -/
def np_hstack {α : Type} (ms : List (List (List α))) : List (List α) :=
  match ms with
  | [] => []
  | m :: rest => rest.foldl (fun acc x => List.zipWith (· ++ ·) acc x) m

/-- `np.vstack` on a list of rank-2 arrays: concatenate along axis 0. -/
def np_vstack {α : Type} (ms : List (List (List α))) : List (List α) :=
  ms.flatten

/-- The composition tail of `main.main` (lines 59–67): color conversion,
standardization, annotation of each panel with its caption (`annot` models
`utilities.annotate_image`, absent from `src/`), then the first three
panels side by side as row 1, the last three as row 2, stacked
vertically. -/
def compose_report (annot : ColorImg → String → String → ColorImg)
    (panels : List (Option NDArray)) : ColorImg :=
  let color_images := convert_to_color panels
  let standardized_images := standardize_dimensions color_images
  let annotated := List.zipWith (fun img a => annot img a "")
    standardized_images annotTexts
  let row1 := np_hstack (annotated.take 3)
  let row2 := np_hstack (annotated.drop 3)
  np_vstack [row1, row2]

/-- The suffix `".png"` as a character list. -/
def pngSuffix : List Char := ['.', 'p', 'n', 'g']

/-- `image_path.lower().endswith('.png')` from `main.main`, on the path's
character list. -/
def pngLower (p : List Char) : Bool :=
  List.isSuffixOf pngSuffix (p.map Char.toLower)

/-- The image actually handed to `process_images` by `main.main`: paths
ending in `.png` (case-insensitively) are first re-encoded through a JPEG
intermediate at quality 90 (`roundtrip90` models the
`cv2.imwrite(temp, ·, [IMWRITE_JPEG_QUALITY, 90])` / `cv2.imread(temp)`
pair) and the re-decoded copy replaces the original decode. -/
def selectAnalyzed (roundtrip90 : ColorImg → ColorImg) (p : List Char)
    (decoded : ColorImg) : ColorImg :=
  if pngLower p then roundtrip90 decoded else decoded

/-- Embedding of `main.main`: decode the path (`imread`), apply the PNG
re-encoding policy, run the pipeline, compose the report.  `none` models
the fatal path where the image cannot be decoded (the raised `ValueError`
is caught at top level and no report is written); `some r` models
`analysis_report.png` being written with content `r`. -/
def main_model (imread : List Char → Option ColorImg)
    (roundtrip90 : ColorImg → ColorImg)
    (annot : ColorImg → String → String → ColorImg)
    (E : Externals) (image_path : List Char) : Option ColorImg :=
  match imread image_path with
  | none => none
  | some image =>
    some (compose_report annot
      (process_images E (selectAnalyzed roundtrip90 image_path image)))

/-! ## Helper lemmas -/

theorem getD_zipWith' {α β γ : Type} (f : α → β → γ) (as : List α) (bs : List β)
    (i : Nat) (d : γ) (da : α) (db : β) (ha : i < as.length) (hb : i < bs.length) :
    (List.zipWith f as bs).getD i d = f (as.getD i da) (bs.getD i db) := by
  rw [List.getD_eq_getElem _ _ (by simp [List.length_zipWith]; omega),
    List.getElem_zipWith, List.getD_eq_getElem _ _ ha, List.getD_eq_getElem _ _ hb]

theorem getD_map' {α β : Type} (f : α → β) (l : List α) (i : Nat) (d : β) (da : α)
    (h : i < l.length) : (l.map f).getD i d = f (l.getD i da) := by
  rw [List.getD_eq_getElem _ _ (by simpa using h), List.getElem_map,
    List.getD_eq_getElem _ _ h]

theorem mem_zipWith' {α β γ : Type} {f : α → β → γ} {c : γ} :
    ∀ {as : List α} {bs : List β}, c ∈ List.zipWith f as bs →
      ∃ a ∈ as, ∃ b ∈ bs, c = f a b := by
  intro as
  induction as with
  | nil => intro bs h; simp at h
  | cons a as ih =>
    intro bs h
    cases bs with
    | nil => simp at h
    | cons b bs =>
      simp only [List.zipWith_cons_cons, List.mem_cons] at h
      rcases h with h | h
      · exact ⟨a, by simp, b, by simp, h⟩
      · obtain ⟨a', ha', b', hb', hc⟩ := ih h
        exact ⟨a', by simp [ha'], b', by simp [hb'], hc⟩

theorem sampleD_ewise2 {f : Nat → Nat → Nat} {a b : ColorImg} {y x ch : Nat}
    (ha : InBounds a y x ch) (hb : InBounds b y x ch) :
    sampleD (ewise2 f a b) y x ch = f (sampleD a y x ch) (sampleD b y x ch) := by
  obtain ⟨ha1, ha2, ha3⟩ := ha
  obtain ⟨hb1, hb2, hb3⟩ := hb
  unfold sampleD ewise2
  rw [getD_zipWith' _ a b y [] [] [] ha1 hb1,
    getD_zipWith' _ _ _ x [] [] [] ha2 hb2,
    getD_zipWith' _ _ _ ch 0 0 0 ha3 hb3]

theorem inBounds_ewise2 {f : Nat → Nat → Nat} {a b : ColorImg} {y x ch : Nat}
    (ha : InBounds a y x ch) (hb : InBounds b y x ch) :
    InBounds (ewise2 f a b) y x ch := by
  obtain ⟨ha1, ha2, ha3⟩ := ha
  obtain ⟨hb1, hb2, hb3⟩ := hb
  refine ⟨?_, ?_, ?_⟩
  · simp only [ewise2, List.length_zipWith, lt_min_iff]
    exact ⟨ha1, hb1⟩
  · rw [show (ewise2 f a b).getD y [] = _ from
      getD_zipWith' _ a b y [] [] [] ha1 hb1]
    simp only [List.length_zipWith, lt_min_iff]
    exact ⟨ha2, hb2⟩
  · rw [show (ewise2 f a b).getD y [] = _ from
      getD_zipWith' _ a b y [] [] [] ha1 hb1,
      getD_zipWith' _ _ _ x [] [] [] ha2 hb2]
    simp only [List.length_zipWith, lt_min_iff]
    exact ⟨ha3, hb3⟩

theorem sampleD_ewise1 {f : Nat → Nat} {a : ColorImg} {y x ch : Nat}
    (ha : InBounds a y x ch) :
    sampleD (ewise1 f a) y x ch = f (sampleD a y x ch) := by
  obtain ⟨ha1, ha2, ha3⟩ := ha
  unfold sampleD ewise1
  rw [getD_map' _ a y [] [] ha1, getD_map' _ _ x [] [] ha2,
    getD_map' _ _ ch 0 0 ha3]

theorem inBounds_ewise1 {f : Nat → Nat} {a : ColorImg} {y x ch : Nat}
    (ha : InBounds a y x ch) : InBounds (ewise1 f a) y x ch := by
  obtain ⟨ha1, ha2, ha3⟩ := ha
  refine ⟨by simpa [ewise1] using ha1, ?_, ?_⟩
  · rw [show (ewise1 f a).getD y [] = _ from getD_map' _ a y [] [] ha1]
    simpa using ha2
  · rw [show (ewise1 f a).getD y [] = _ from getD_map' _ a y [] [] ha1,
      getD_map' _ _ x [] [] ha2]
    simpa using ha3

theorem listMin_cons_cons (x y : ℚ) (xs : List ℚ) :
    listMin (x :: y :: xs) = min x (listMin (y :: xs)) := rfl

theorem listMax_cons_cons (x y : ℚ) (xs : List ℚ) :
    listMax (x :: y :: xs) = max x (listMax (y :: xs)) := rfl

theorem listMin_le_of_mem {v : ℚ} : ∀ {l : List ℚ}, v ∈ l → listMin l ≤ v := by
  intro l
  induction l with
  | nil => intro h; simp at h
  | cons x xs ih =>
    intro h
    cases xs with
    | nil => simp at h; simp [listMin, h]
    | cons y ys =>
      rw [listMin_cons_cons]
      rcases List.mem_cons.mp h with h | h
      · exact h ▸ min_le_left _ _
      · exact le_trans (min_le_right _ _) (ih h)

theorem le_listMax_of_mem {v : ℚ} : ∀ {l : List ℚ}, v ∈ l → v ≤ listMax l := by
  intro l
  induction l with
  | nil => intro h; simp at h
  | cons x xs ih =>
    intro h
    cases xs with
    | nil => simp at h; simp [listMax, h]
    | cons y ys =>
      rw [listMax_cons_cons]
      rcases List.mem_cons.mp h with h | h
      · exact h ▸ le_max_left _ _
      · exact le_trans (ih h) (le_max_right _ _)

theorem listMin_eq_of_const {K : ℚ} :
    ∀ {l : List ℚ}, l ≠ [] → (∀ v ∈ l, v = K) → listMin l = K := by
  intro l
  induction l with
  | nil => intro h; exact absurd rfl h
  | cons x xs ih =>
    intro _ hc
    cases xs with
    | nil => simpa [listMin] using hc x (by simp)
    | cons y ys =>
      rw [listMin_cons_cons, hc x (by simp),
        ih (by simp) (fun v hv => hc v (List.mem_cons_of_mem _ hv)), min_self]

theorem listMax_eq_of_const {K : ℚ} :
    ∀ {l : List ℚ}, l ≠ [] → (∀ v ∈ l, v = K) → listMax l = K := by
  intro l
  induction l with
  | nil => intro h; exact absurd rfl h
  | cons x xs ih =>
    intro _ hc
    cases xs with
    | nil => simpa [listMax] using hc x (by simp)
    | cons y ys =>
      rw [listMax_cons_cons, hc x (by simp),
        ih (by simp) (fun v hv => hc v (List.mem_cons_of_mem _ hv)), max_self]

theorem listMin_eq_listMax_of_const {K : ℚ} {l : List ℚ}
    (hc : ∀ v ∈ l, v = K) : listMin l = listMax l := by
  cases l with
  | nil => rfl
  | cons x xs =>
    rw [listMin_eq_of_const (by simp) hc, listMax_eq_of_const (by simp) hc]

theorem stretch255_le_255 (lo hi v : ℚ) : stretch255 lo hi v ≤ 255 :=
  min_le_left _ _

theorem insertSorted_perm (x : Nat) (l : List Nat) :
    (insertSorted x l).Perm (x :: l) := by
  induction l with
  | nil => simp [insertSorted]
  | cons y ys ih =>
    simp only [insertSorted]
    split
    · exact List.Perm.refl _
    · exact (List.Perm.cons y ih).trans (List.Perm.swap x y ys)

theorem sortNat_perm (l : List Nat) : (sortNat l).Perm l := by
  induction l with
  | nil => simp [sortNat]
  | cons x xs ih =>
    exact (insertSorted_perm x (sortNat xs)).trans (List.Perm.cons x ih)

theorem mem_sortNat {v : Nat} {l : List Nat} (h : v ∈ sortNat l) : v ∈ l :=
  (sortNat_perm l).mem_iff.mp h

theorem getD_le_of_all_le {l : List Nat} {d bound : Nat} (i : Nat)
    (h : ∀ v ∈ l, v ≤ bound) (hd : d ≤ bound) : l.getD i d ≤ bound := by
  by_cases hi : i < l.length
  · rw [List.getD_eq_getElem _ _ hi]
    exact h _ (List.getElem_mem hi)
  · rw [List.getD_eq_default _ _ (by omega)]
    exact hd

theorem npMedian_nonneg (l : List Nat) : 0 ≤ npMedian l := by
  unfold npMedian
  split
  · positivity
  · positivity

theorem npMedian_le_255 {l : List Nat} (h : ∀ v ∈ l, v ≤ 255) :
    npMedian l ≤ 255 := by
  have hs : ∀ i : Nat, (sortNat l).getD i 0 ≤ 255 := fun i =>
    getD_le_of_all_le i (fun v hv => h v (mem_sortNat hv)) (by omega)
  unfold npMedian
  split
  · exact_mod_cast hs _
  · have h1 := hs ((sortNat l).length / 2 - 1)
    have h2 := hs ((sortNat l).length / 2)
    have c1 : ((sortNat l).getD ((sortNat l).length / 2 - 1) 0 : ℚ) ≤ 255 := by
      exact_mod_cast h1
    have c2 : ((sortNat l).getD ((sortNat l).length / 2) 0 : ℚ) ≤ 255 := by
      exact_mod_cast h2
    linarith

/-! ## Claim theorems -/

/-- C10: `process_images` returns exactly six panels in the fixed order
[original, ELA, Gabor, edge, frequency, texture]; the first is the input
buffer itself unmodified, and a failed analysis contributes the
unavailable marker (`none`) in place rather than being omitted — the
length is six for every choice of external primitives, hence for every
combination of analyzer failures. -/
theorem process_images_six_fixed_order (E : Externals) (image : ColorImg) :
    process_images E image =
      [some (.color image),
        (perform_ela E.roundtrip E.jet (.array image)).map .color,
        (perform_gabor_filtering E.cvt E.kR E.kI E.sqrtQ (some image)).map .gray,
        (perform_advanced_edge_detection E.cvt E.blur E.canny
          (.array image)).map .gray,
        (perform_frequency_analysis E.cvt E.fftLogMag E.dwtHV E.sqrtQ E.resizeQ
          (some image)).map .gray,
        (perform_texture_analysis E.cvt E.lbp (some image)).map .gray]
    ∧ (process_images E image).length = 6
    ∧ (process_images E image).getD 0 none = some (.color image) :=
  ⟨rfl, rfl, rfl⟩

/-- C9: the 20× ELA amplification is uint8 arithmetic, so the scaled value
is `(20 * difference) % 256`; a per-pixel difference of 13 amplifies to 4
while the smaller difference 12 amplifies to 240, and `perform_ela`'s
per-pixel maximum is taken over these wrapped values (shown end to end on
a two-pixel image whose diffs are 13 and 12). -/
theorem ela_amplification_wraps_mod256 :
    (∀ d : Nat, amp20 d = 20 * d % 256)
    ∧ 12 < 13 ∧ amp20 13 = 4 ∧ amp20 12 = 240 ∧ amp20 13 < amp20 12
    ∧ perform_ela (fun _ _ => some [[[0], [0]]]) (fun c => c)
        (.array [[[13], [12]]]) = some [[[4], [240]]] :=
  ⟨fun _ => rfl, by decide, by decide, by decide, by decide, by decide⟩

/-- C6 (counterexample): at the concrete invalid inputs `None` and
non-array, `perform_advanced_edge_detection`'s observable result is the
very same unavailable marker (`none`) that `perform_ela` returns on its
graceful failure path — not a distinct type/validity error escaping to the
caller, because the function's own `except` clause catches the raise. -/
theorem edge_invalid_input_counterexample :
    perform_advanced_edge_detection (fun _ => []) (fun g => g)
      (fun g _ _ => g) .none_ = none
    ∧ perform_advanced_edge_detection (fun _ => []) (fun g => g)
      (fun g _ _ => g) .notArray = none
    ∧ perform_ela (fun _ _ => none) (fun c => c) .none_ = none :=
  ⟨rfl, rfl, rfl⟩

/-- C6 (amended): on an absent or non-array input the edge detector raises
a `ValueError`/`TypeError` internally (visible in `edgeInner`, the body of
its `try` block), but its own exception handler catches it and returns the
unavailable marker, the same graceful path the other analyzers use; the
error is not distinct at the call boundary. -/
theorem edge_invalid_input_caught (cvt : ColorImg → GrayImg)
    (blur : GrayImg → GrayImg) (canny : GrayImg → ℤ → ℤ → GrayImg) :
    edgeInner cvt blur canny .none_ =
      .error (.valueError "Received a NoneType image for edge detection.")
    ∧ edgeInner cvt blur canny .notArray =
      .error (.typeError "Invalid type for image. Expected np.ndarray.")
    ∧ perform_advanced_edge_detection cvt blur canny .none_ = none
    ∧ perform_advanced_edge_detection cvt blur canny .notArray = none :=
  ⟨rfl, rfl, rfl, rfl⟩

/-- C7: whenever the decoded image exists, `main_model` analyzes the
quality-90 JPEG roundtrip of the decode exactly when the lowercased path
ends in ".png", and the unchanged decode otherwise. -/
theorem png_reencode_policy (imread : List Char → Option ColorImg)
    (roundtrip90 : ColorImg → ColorImg)
    (annot : ColorImg → String → String → ColorImg) (E : Externals)
    (p : List Char) (img : ColorImg) (hdec : imread p = some img) :
    (pngLower p = true →
      main_model imread roundtrip90 annot E p =
        some (compose_report annot (process_images E (roundtrip90 img))))
    ∧ (pngLower p = false →
      main_model imread roundtrip90 annot E p =
        some (compose_report annot (process_images E img))) := by
  constructor <;> intro hpng <;>
    simp [main_model, hdec, selectAnalyzed, hpng]

/-- Witness for C7: the path "a.PNG" ends in ".png" case-insensitively and
the pipeline analyzes the JPEG-roundtripped decode; the path "a.jpg" does
not, and the decode is analyzed unchanged. -/
theorem png_reencode_policy_witness :
    pngLower ['a', '.', 'P', 'N', 'G'] = true
    ∧ pngLower ['a', '.', 'j', 'p', 'g'] = false
    ∧ main_model (fun _ => some [[[1]]]) (fun _ => [[[2]]])
        (fun i _ _ => i)
        ⟨fun _ _ => none, fun c => c, fun _ => [[1, 2]], [], [], fun q => q,
          fun g => g, fun g _ _ => g, fun _ => [], fun _ => ([], []),
          fun _ _ m => m, fun _ _ _ _ => []⟩ ['a', '.', 'P', 'N', 'G'] =
      some (compose_report (fun i _ _ => i)
        (process_images
          ⟨fun _ _ => none, fun c => c, fun _ => [[1, 2]], [], [], fun q => q,
            fun g => g, fun g _ _ => g, fun _ => [], fun _ => ([], []),
            fun _ _ m => m, fun _ _ _ _ => []⟩ [[[2]]])) :=
  ⟨by decide, by decide,
    (png_reencode_policy (fun _ => some [[[1]]]) (fun _ => [[[2]]])
      (fun i _ _ => i) _ ['a', '.', 'P', 'N', 'G'] [[[1]]] rfl).1 (by decide)⟩

theorem zipWith_append_dims {α : Type} {a b : List (List α)} {h w1 w2 : Nat}
    (ha : a.length = h) (hb : b.length = h)
    (hwa : ∀ r ∈ a, r.length = w1) (hwb : ∀ r ∈ b, r.length = w2) :
    (List.zipWith (· ++ ·) a b).length = h
    ∧ ∀ r ∈ List.zipWith (· ++ ·) a b, r.length = w1 + w2 := by
  constructor
  · simp [List.length_zipWith, ha, hb]
  · intro r hr
    obtain ⟨r1, h1, r2, h2, rfl⟩ := mem_zipWith' hr
    simp [hwa r1 h1, hwb r2 h2]

/-- C3: stacking the first three standardized panels as one horizontal row
and the last three as a second row (`np.hstack` twice), then stacking the
rows vertically (`np.vstack`), yields a report of exactly 2× the common
panel height and 3× the common panel width, for any six well-formed
equal-sized panels. -/
theorem composer_grid_dimensions {α : Type} (p1 p2 p3 p4 p5 p6 : List (List α))
    (h w : Nat)
    (hp : ∀ p ∈ [p1, p2, p3, p4, p5, p6], p.length = h ∧ ∀ r ∈ p, r.length = w) :
    (np_vstack [np_hstack [p1, p2, p3], np_hstack [p4, p5, p6]]).length = 2 * h
    ∧ ∀ r ∈ np_vstack [np_hstack [p1, p2, p3], np_hstack [p4, p5, p6]],
        r.length = 3 * w := by
  have h1 := hp p1 (by simp)
  have h2 := hp p2 (by simp)
  have h3 := hp p3 (by simp)
  have h4 := hp p4 (by simp)
  have h5 := hp p5 (by simp)
  have h6 := hp p6 (by simp)
  have d12 := zipWith_append_dims h1.1 h2.1 h1.2 h2.2
  have d123 := zipWith_append_dims d12.1 h3.1 d12.2 h3.2
  have d45 := zipWith_append_dims h4.1 h5.1 h4.2 h5.2
  have d456 := zipWith_append_dims d45.1 h6.1 d45.2 h6.2
  have e1 : np_hstack [p1, p2, p3] =
      List.zipWith (· ++ ·) (List.zipWith (· ++ ·) p1 p2) p3 := rfl
  have e2 : np_hstack [p4, p5, p6] =
      List.zipWith (· ++ ·) (List.zipWith (· ++ ·) p4 p5) p6 := rfl
  have ev : np_vstack [np_hstack [p1, p2, p3], np_hstack [p4, p5, p6]] =
      np_hstack [p1, p2, p3] ++ np_hstack [p4, p5, p6] := by
    simp [np_vstack]
  constructor
  · rw [ev, List.length_append, e1, e2, d123.1, d456.1]; ring
  · intro r hr
    rw [ev] at hr
    rcases List.mem_append.mp hr with hr | hr
    · rw [e1] at hr; rw [d123.2 r hr]; ring
    · rw [e2] at hr; rw [d456.2 r hr]; ring

/-- Witness for C3: six concrete 1×1 panels compose to a 2×3 report. -/
theorem composer_grid_dimensions_witness :
    (∀ p ∈ ([[[1]], [[2]], [[3]], [[4]], [[5]], [[6]]] :
        List (List (List Nat))), p.length = 1 ∧ ∀ r ∈ p, r.length = 1)
    ∧ (np_vstack [np_hstack [[[1]], [[2]], [[3]]],
        np_hstack [[[4]], [[5]], [[6]]]] : List (List Nat)).length = 2 * 1
    ∧ ∀ r ∈ (np_vstack [np_hstack [[[1]], [[2]], [[3]]],
        np_hstack [[[4]], [[5]], [[6]]]] : List (List Nat)), r.length = 3 * 1 :=
  ⟨by decide,
    (composer_grid_dimensions [[1]] [[2]] [[3]] [[4]] [[5]] [[6]] 1 1
      (by decide)).1,
    (composer_grid_dimensions [[1]] [[2]] [[3]] [[4]] [[5]] [[6]] 1 1
      (by decide)).2⟩

/-- C1: whenever the top-level image decodes, `main_model` produces a
report, for every choice of external primitives — in particular for every
combination of analyzer failures, since each analyzer's result enters the
panel list as an `Option` and the Composer substitutes a placeholder for
`none` panels (second conjunct) instead of aborting. -/
theorem pipeline_report_always_composed (imread : List Char → Option ColorImg)
    (roundtrip90 : ColorImg → ColorImg)
    (annot : ColorImg → String → String → ColorImg) (E : Externals)
    (p : List Char) (img : ColorImg) (hdec : imread p = some img) :
    (main_model imread roundtrip90 annot E p).isSome = true
    ∧ ∀ (ps : List (Option NDArray)) (i : Nat), i < ps.length →
        ps.getD i none = none →
        (convert_to_color ps).getD i [] = [[[0, 0, 0]]] := by
  constructor
  · simp [main_model, hdec]
  · intro ps i hi hnone
    have hmap := getD_map'
      (fun p => match p with | some a => toColor3 a | none => [[[0, 0, 0]]])
      ps i [] none hi
    unfold convert_to_color
    rw [hmap, hnone]

/-- Witness for C1: with a JPEG roundtrip that always fails, the ELA
analyzer degrades to the unavailable marker, yet the report is still
produced for a decodable input. -/
theorem pipeline_report_always_composed_witness :
    perform_ela (fun _ _ => none) (fun c => c) (.array [[[7]]]) = none
    ∧ (main_model (fun _ => some [[[7]]]) (fun c => c) (fun i _ _ => i)
        ⟨fun _ _ => none, fun c => c, fun _ => [[1, 2]], [], [], fun q => q,
          fun g => g, fun g _ _ => g, fun _ => [], fun _ => ([], []),
          fun _ _ m => m, fun _ _ _ _ => []⟩ ['a']).isSome = true :=
  ⟨rfl,
    (pipeline_report_always_composed (fun _ => some [[[7]]]) (fun c => c)
      (fun i _ _ => i) _ ['a'] [[[7]]] rfl).1⟩

/-- C2: with all three JPEG roundtrips succeeding, `perform_ela` applies
the jet colormap to the per-pixel maximum of the three amplified
difference buffers for qualities 75, 85, 95 in order; each sample of that
composite is `max` over the three qualities of `(20 × |orig − recoded|)
mod 256` (uint8 arithmetic); a codec failure at any quality, or an
absent/invalid input, degrades to the unavailable marker instead of
propagating. -/
theorem perform_ela_quality_ladder (rt : ColorImg → Nat → Option ColorImg)
    (jet : ColorImg → ColorImg) (img c75 c85 c95 : ColorImg)
    (h75 : rt img 75 = some c75) (h85 : rt img 85 = some c85)
    (h95 : rt img 95 = some c95) :
    perform_ela rt jet (.array img) =
      some (jet (ewise2 max (ewise2 max (elaDiff img c75) (elaDiff img c85))
        (elaDiff img c95)))
    ∧ (∀ y x ch, InBounds img y x ch → InBounds c75 y x ch →
        InBounds c85 y x ch → InBounds c95 y x ch →
        sampleD (ewise2 max (ewise2 max (elaDiff img c75) (elaDiff img c85))
          (elaDiff img c95)) y x ch =
          max (max (amp20 (absdiffU8 (sampleD img y x ch) (sampleD c75 y x ch)))
            (amp20 (absdiffU8 (sampleD img y x ch) (sampleD c85 y x ch))))
            (amp20 (absdiffU8 (sampleD img y x ch) (sampleD c95 y x ch))))
    ∧ (∀ rt2 : ColorImg → Nat → Option ColorImg,
        rt2 img 75 = none ∨ rt2 img 85 = none ∨ rt2 img 95 = none →
        perform_ela rt2 jet (.array img) = none)
    ∧ perform_ela rt jet .none_ = none
    ∧ perform_ela rt jet .notArray = none := by
  refine ⟨by simp [perform_ela, h75, h85, h95], ?_, ?_, rfl, rfl⟩
  · intro y x ch hi h1 h2 h3
    have e75 : InBounds (elaDiff img c75) y x ch :=
      inBounds_ewise1 (inBounds_ewise2 hi h1)
    have e85 : InBounds (elaDiff img c85) y x ch :=
      inBounds_ewise1 (inBounds_ewise2 hi h2)
    have e95 : InBounds (elaDiff img c95) y x ch :=
      inBounds_ewise1 (inBounds_ewise2 hi h3)
    have s75 : sampleD (elaDiff img c75) y x ch =
        amp20 (absdiffU8 (sampleD img y x ch) (sampleD c75 y x ch)) := by
      unfold elaDiff
      rw [sampleD_ewise1 (inBounds_ewise2 hi h1), sampleD_ewise2 hi h1]
    have s85 : sampleD (elaDiff img c85) y x ch =
        amp20 (absdiffU8 (sampleD img y x ch) (sampleD c85 y x ch)) := by
      unfold elaDiff
      rw [sampleD_ewise1 (inBounds_ewise2 hi h2), sampleD_ewise2 hi h2]
    have s95 : sampleD (elaDiff img c95) y x ch =
        amp20 (absdiffU8 (sampleD img y x ch) (sampleD c95 y x ch)) := by
      unfold elaDiff
      rw [sampleD_ewise1 (inBounds_ewise2 hi h3), sampleD_ewise2 hi h3]
    rw [sampleD_ewise2 (inBounds_ewise2 e75 e85) e95, sampleD_ewise2 e75 e85,
      s75, s85, s95]
  · intro rt2 hfail
    rcases hfail with h | h | h
    · cases hx : rt2 img 85 <;> cases hy : rt2 img 95 <;>
        simp [perform_ela, h, hx, hy]
    · cases hx : rt2 img 75 <;> cases hy : rt2 img 95 <;>
        simp [perform_ela, h, hx, hy]
    · cases hx : rt2 img 75 <;> cases hy : rt2 img 85 <;>
        simp [perform_ela, h, hx, hy]

/-- Witness for C2: a one-pixel image with differences 10, 5, 1 at the
three qualities; the roundtrip hypotheses hold and the composite report is
produced. -/
theorem perform_ela_quality_ladder_witness :
    (fun (_ : ColorImg) (q : Nat) =>
      if q = 75 then some ([[[90]]] : ColorImg)
      else if q = 85 then some [[[95]]] else some [[[99]]]) [[[100]]] 75 =
        some [[[90]]]
    ∧ (fun (_ : ColorImg) (q : Nat) =>
      if q = 75 then some ([[[90]]] : ColorImg)
      else if q = 85 then some [[[95]]] else some [[[99]]]) [[[100]]] 85 =
        some [[[95]]]
    ∧ (fun (_ : ColorImg) (q : Nat) =>
      if q = 75 then some ([[[90]]] : ColorImg)
      else if q = 85 then some [[[95]]] else some [[[99]]]) [[[100]]] 95 =
        some [[[99]]]
    ∧ (perform_ela (fun (_ : ColorImg) (q : Nat) =>
        if q = 75 then some ([[[90]]] : ColorImg)
        else if q = 85 then some [[[95]]] else some [[[99]]])
        (fun c => c) (.array [[[100]]])).isSome = true :=
  ⟨by decide, by decide, by decide, by
    rw [(perform_ela_quality_ladder
      (fun (_ : ColorImg) (q : Nat) =>
        if q = 75 then some ([[[90]]] : ColorImg)
        else if q = 85 then some [[[95]]] else some [[[99]]])
      (fun c => c) [[[100]]] [[[90]]] [[[95]]] [[[99]]]
      (by decide) (by decide) (by decide)).1]
    rfl⟩

/-- C4: the adaptive edge detector's thresholds over the blurred grayscale
image's median equal the spec's clamp formulas (the code's one-sided
`max 0` / `min 255` coincide with full clamps because the median of uint8
samples lies in [0, 255]), are truncated to integers by `int(...)`
(= floor on non-negative values), and always satisfy
`0 ≤ lower ≤ upper ≤ 255`; they are exactly the two thresholds handed to
Canny. -/
theorem edge_thresholds_clamped_ordered (cvt : ColorImg → GrayImg)
    (blur : GrayImg → GrayImg) (canny : GrayImg → ℤ → ℤ → GrayImg)
    (img : ColorImg)
    (hbd : ∀ v ∈ (blur (cvt img)).flatten, v ≤ 255) :
    perform_advanced_edge_detection cvt blur canny (.array img) =
      some (canny (blur (cvt img))
        (cannyLower (blur (cvt img)).flatten)
        (cannyUpper (blur (cvt img)).flatten))
    ∧ cannyLower (blur (cvt img)).flatten =
        Int.floor (min 255 (max 0
          ((7 : ℚ) / 10 * npMedian (blur (cvt img)).flatten)))
    ∧ cannyUpper (blur (cvt img)).flatten =
        Int.floor (min 255 (max 0
          ((13 : ℚ) / 10 * npMedian (blur (cvt img)).flatten)))
    ∧ 0 ≤ cannyLower (blur (cvt img)).flatten
    ∧ cannyLower (blur (cvt img)).flatten ≤ cannyUpper (blur (cvt img)).flatten
    ∧ cannyUpper (blur (cvt img)).flatten ≤ 255 := by
  have hm0 : 0 ≤ npMedian (blur (cvt img)).flatten := npMedian_nonneg _
  have hm1 : npMedian (blur (cvt img)).flatten ≤ 255 := npMedian_le_255 hbd
  have h7nn : (0 : ℚ) ≤ 7 / 10 * npMedian (blur (cvt img)).flatten :=
    mul_nonneg (by norm_num) hm0
  have h13nn : (0 : ℚ) ≤ 13 / 10 * npMedian (blur (cvt img)).flatten :=
    mul_nonneg (by norm_num) hm0
  have h7le : (7 : ℚ) / 10 * npMedian (blur (cvt img)).flatten ≤ 255 := by
    linarith
  have h717 : (7 : ℚ) / 10 * npMedian (blur (cvt img)).flatten ≤
      13 / 10 * npMedian (blur (cvt img)).flatten := by linarith
  refine ⟨rfl, ?_, ?_, ?_, ?_, ?_⟩
  · unfold cannyLower
    rw [min_eq_right (max_le (by norm_num) h7le)]
  · unfold cannyUpper
    rw [max_eq_right h13nn]
  · unfold cannyLower
    exact Int.le_floor.mpr (by exact_mod_cast le_max_left _ _)
  · unfold cannyLower cannyUpper
    exact Int.floor_mono (by
      rw [max_eq_right h7nn]
      exact le_min h7le h717)
  · unfold cannyUpper
    have hf : Int.floor (min (255 : ℚ)
        (13 / 10 * npMedian (blur (cvt img)).flatten)) ≤
        Int.floor ((255 : ℚ)) := Int.floor_mono (min_le_left _ _)
    have h255 : Int.floor ((255 : ℚ)) = 255 := by norm_num
    omega

/-- Witness for C4: on the concrete blurred image `[[10, 20, 30]]` (median
20) the thresholds are ordered and within the uint8 range. -/
theorem edge_thresholds_clamped_ordered_witness :
    (∀ v ∈ ([[10, 20, 30]] : GrayImg).flatten, v ≤ 255)
    ∧ 0 ≤ cannyLower [10, 20, 30]
    ∧ cannyLower [10, 20, 30] ≤ cannyUpper [10, 20, 30]
    ∧ cannyUpper [10, 20, 30] ≤ 255 := by
  have h := edge_thresholds_clamped_ordered (fun _ => [[10, 20, 30]])
    (fun g => g) (fun g _ _ => g) [] (by decide)
  exact ⟨by decide, h.2.2.2.1, h.2.2.2.2.1, h.2.2.2.2.2⟩

theorem forall₂_rowlen_map (f : ℚ → Nat) {m : QMat} {g : GrayImg}
    (h : List.Forall₂ (fun (r : List ℚ) (s : List Nat) => r.length = s.length)
      m g) :
    List.Forall₂ (fun (r : List Nat) (s : List Nat) => r.length = s.length)
      (m.map (fun row => row.map f)) g := by
  induction h with
  | nil => exact .nil
  | cons h1 _ ih => exact .cons (by simpa using h1) ih

theorem normalize_gray_image_le_255 (m : QMat) :
    ∀ v ∈ (normalize_gray_image m).flatten, v ≤ 255 := by
  intro v hv
  unfold normalize_gray_image at hv
  split at hv
  · obtain ⟨row, hrow, hvrow⟩ := List.mem_flatten.mp hv
    obtain ⟨r0, _, rfl⟩ := List.mem_map.mp hrow
    obtain ⟨q, _, rfl⟩ := List.mem_map.mp hvrow
    omega
  · obtain ⟨row, hrow, hvrow⟩ := List.mem_flatten.mp hv
    obtain ⟨r0, _, rfl⟩ := List.mem_map.mp hrow
    obtain ⟨q, _, rfl⟩ := List.mem_map.mp hvrow
    exact stretch255_le_255 _ _ _

theorem normalize_gray_image_length (m : QMat) :
    (normalize_gray_image m).length = m.length := by
  unfold normalize_gray_image
  split <;> simp

theorem normalize_gray_image_forall₂ {m : QMat} {g : GrayImg}
    (h : List.Forall₂ (fun (r : List ℚ) (s : List Nat) => r.length = s.length)
      m g) :
    List.Forall₂ (fun (r : List Nat) (s : List Nat) => r.length = s.length)
      (normalize_gray_image m) g := by
  unfold normalize_gray_image
  split <;> exact forall₂_rowlen_map _ h

/-- C8: the local texture analyzer invokes the uniform local binary
pattern with radius 3 and 8×3 = 24 sampling points on the grayscale
conversion, min-max normalizes the descriptor, every output value lies in
[0, 255] (the values are naturals, so 0 is a lower bound by type), and the
output has the same spatial size — height and every row width — as its
grayscale input whenever the LBP descriptor does (skimage's
`local_binary_pattern` is shape-preserving). -/
theorem texture_lbp_normalized_bounds (cvt : ColorImg → GrayImg)
    (lbp : Nat → Nat → LBPMethod → GrayImg → QMat) (img : ColorImg)
    (hshape : List.Forall₂
      (fun (r : List ℚ) (s : List Nat) => r.length = s.length)
      (lbp 24 3 .uniform (cvt img)) (cvt img)) :
    perform_texture_analysis cvt lbp (some img) =
      some (normalize_gray_image (lbp 24 3 .uniform (cvt img)))
    ∧ (∀ v ∈ (normalize_gray_image (lbp 24 3 .uniform (cvt img))).flatten,
        v ≤ 255)
    ∧ (normalize_gray_image (lbp 24 3 .uniform (cvt img))).length =
        (cvt img).length
    ∧ List.Forall₂ (fun (r : List Nat) (s : List Nat) => r.length = s.length)
        (normalize_gray_image (lbp 24 3 .uniform (cvt img))) (cvt img) := by
  refine ⟨rfl, normalize_gray_image_le_255 _, ?_,
    normalize_gray_image_forall₂ hshape⟩
  rw [normalize_gray_image_length, hshape.length_eq]

/-- Witness for C8: a shape-preserving LBP stand-in on a concrete 1×2
grayscale image; the shape hypothesis holds and all output values are
within the 8-bit range. -/
theorem texture_lbp_normalized_bounds_witness :
    List.Forall₂ (fun (r : List ℚ) (s : List Nat) => r.length = s.length)
      ((fun (_ _ : Nat) (_ : LBPMethod) (g : GrayImg) =>
        g.map (fun row => row.map (fun v => (v : ℚ)))) 24 3 .uniform
        ((fun (_ : ColorImg) => ([[5, 6]] : GrayImg)) []))
      ((fun (_ : ColorImg) => ([[5, 6]] : GrayImg)) [])
    ∧ ∀ v ∈ (normalize_gray_image
        ((fun (_ _ : Nat) (_ : LBPMethod) (g : GrayImg) =>
          g.map (fun row => row.map (fun v => (v : ℚ)))) 24 3 .uniform
          ((fun (_ : ColorImg) => ([[5, 6]] : GrayImg)) []))).flatten,
        v ≤ 255 :=
  ⟨List.Forall₂.cons rfl List.Forall₂.nil,
    (texture_lbp_normalized_bounds (fun _ => [[5, 6]])
      (fun _ _ _ g => g.map (fun row => row.map (fun v => (v : ℚ)))) []
      (List.Forall₂.cons rfl List.Forall₂.nil)).2.1⟩

theorem reflectIdx_lt {n : Nat} (hn : n ≠ 0) (i : ℤ) : reflectIdx n i < n := by
  unfold reflectIdx
  rw [if_neg hn]
  have h2n : (0 : ℤ) < 2 * (n : ℤ) := by
    have : 0 < n := Nat.pos_of_ne_zero hn
    omega
  have hlt : i % (2 * (n : ℤ)) < 2 * (n : ℤ) := Int.emod_lt_of_pos i h2n
  have hge : (0 : ℤ) ≤ i % (2 * (n : ℤ)) := Int.emod_nonneg i (by omega)
  split
  · assumption
  · omega

theorem extendReflect_const {g : GrayImg} {c : Nat} (hne : g ≠ [])
    (hrow : ∀ row ∈ g, row ≠ [] ∧ ∀ v ∈ row, v = c) (i j : ℤ) :
    extendReflect g i j = (c : ℚ) := by
  unfold extendReflect
  have hlen : g.length ≠ 0 := by
    simpa [List.length_eq_zero] using hne
  have hi := reflectIdx_lt hlen i
  have hrowmem : g.getD (reflectIdx g.length i) [] ∈ g := by
    rw [List.getD_eq_getElem _ _ hi]
    exact List.getElem_mem _
  obtain ⟨hrne, hrc⟩ := hrow _ hrowmem
  have hjlen : (g.getD (reflectIdx g.length i) []).length ≠ 0 := by
    simpa [List.length_eq_zero] using hrne
  have hj := reflectIdx_lt hjlen j
  rw [List.getD_eq_getElem _ _ hj]
  exact_mod_cast congrArg (Nat.cast : Nat → ℚ)
    (hrc _ (List.getElem_mem hj))

theorem convolveAt_const {g : GrayImg} {c : Nat} (hne : g ≠ [])
    (hrow : ∀ row ∈ g, row ≠ [] ∧ ∀ v ∈ row, v = c)
    (ker : List (ℤ × ℤ × ℚ)) (y x : ℤ) :
    convolveAt ker g y x = (ker.map (fun t => t.2.2 * (c : ℚ))).sum := by
  unfold convolveAt
  congr 1
  exact List.map_congr_left (fun t _ => by rw [extendReflect_const hne hrow])

theorem gaborResponse_const_mem {g : GrayImg} {c : Nat} (hne : g ≠ [])
    (hrow : ∀ row ∈ g, row ≠ [] ∧ ∀ v ∈ row, v = c)
    (ker : List (ℤ × ℤ × ℚ)) :
    ∀ v ∈ (gaborResponse ker g).flatten,
      v = (ker.map (fun t => t.2.2 * (c : ℚ))).sum := by
  intro v hv
  obtain ⟨row, hrowm, hvm⟩ := List.mem_flatten.mp hv
  obtain ⟨y, _, rfl⟩ := List.mem_map.mp hrowm
  obtain ⟨x, _, rfl⟩ := List.mem_map.mp hvm
  exact convolveAt_const hne hrow ker _ _

theorem gaborMag_const_mem {g : GrayImg} {c : Nat} (hne : g ≠ [])
    (hrow : ∀ row ∈ g, row ≠ [] ∧ ∀ v ∈ row, v = c)
    (kR kI : List (ℤ × ℤ × ℚ)) (sqrtQ : ℚ → ℚ) :
    ∀ v ∈ (gaborMag kR kI sqrtQ g).flatten,
      v = sqrtQ ((kR.map (fun t => t.2.2 * (c : ℚ))).sum ^ 2 +
        (kI.map (fun t => t.2.2 * (c : ℚ))).sum ^ 2) := by
  intro v hv
  obtain ⟨row, hrowm, hvm⟩ := List.mem_flatten.mp hv
  obtain ⟨rA, hA, rB, hB, rfl⟩ := mem_zipWith' hrowm
  obtain ⟨a, ha, b, hb, rfl⟩ := mem_zipWith' hvm
  rw [gaborResponse_const_mem hne hrow kR a (List.mem_flatten.mpr ⟨rA, hA, ha⟩),
    gaborResponse_const_mem hne hrow kI b (List.mem_flatten.mpr ⟨rB, hB, hb⟩)]

/-- C5: on any input whose Gabor magnitude plane has equal minimum and
maximum — in particular on any perfectly uniform (constant-valued)
grayscale input, where both convolution responses are constant, for every
kernel pair and square root — `perform_gabor_filtering` returns the
unavailable marker (and in particular does not crash); on a non-degenerate
magnitude it returns the min-max normalized single-channel buffer, all of
whose values lie within the 8-bit range. -/
theorem gabor_degenerate_and_normalized (cvt : ColorImg → GrayImg)
    (kR kI : List (ℤ × ℤ × ℚ)) (sqrtQ : ℚ → ℚ) (img : ColorImg) :
    ((∃ c : Nat, cvt img ≠ [] ∧
        ∀ row ∈ cvt img, row ≠ [] ∧ ∀ v ∈ row, v = c) →
      perform_gabor_filtering cvt kR kI sqrtQ (some img) = none)
    ∧ (listMin (gaborMag kR kI sqrtQ (cvt img)).flatten =
        listMax (gaborMag kR kI sqrtQ (cvt img)).flatten →
      perform_gabor_filtering cvt kR kI sqrtQ (some img) = none)
    ∧ ((gaborResponse kR (cvt img)).flatten.isEmpty = false →
      (gaborResponse kI (cvt img)).flatten.isEmpty = false →
      listMin (gaborMag kR kI sqrtQ (cvt img)).flatten ≠
        listMax (gaborMag kR kI sqrtQ (cvt img)).flatten →
      perform_gabor_filtering cvt kR kI sqrtQ (some img) =
        some ((gaborMag kR kI sqrtQ (cvt img)).map (fun row =>
          row.map (stretch255
            (listMin (gaborMag kR kI sqrtQ (cvt img)).flatten)
            (listMax (gaborMag kR kI sqrtQ (cvt img)).flatten))))
      ∧ ∀ v ∈ ((gaborMag kR kI sqrtQ (cvt img)).map (fun row =>
          row.map (stretch255
            (listMin (gaborMag kR kI sqrtQ (cvt img)).flatten)
            (listMax (gaborMag kR kI sqrtQ (cvt img)).flatten)))).flatten,
          v ≤ 255) := by
  have unf : perform_gabor_filtering cvt kR kI sqrtQ (some img) =
      if (gaborResponse kR (cvt img)).flatten.isEmpty ∨
          (gaborResponse kI (cvt img)).flatten.isEmpty then none
      else if listMin (gaborMag kR kI sqrtQ (cvt img)).flatten =
          listMax (gaborMag kR kI sqrtQ (cvt img)).flatten then none
      else some ((gaborMag kR kI sqrtQ (cvt img)).map (fun row =>
        row.map (stretch255
          (listMin (gaborMag kR kI sqrtQ (cvt img)).flatten)
          (listMax (gaborMag kR kI sqrtQ (cvt img)).flatten)))) := rfl
  have p2 : listMin (gaborMag kR kI sqrtQ (cvt img)).flatten =
      listMax (gaborMag kR kI sqrtQ (cvt img)).flatten →
      perform_gabor_filtering cvt kR kI sqrtQ (some img) = none := by
    intro hmm
    rw [unf]
    by_cases h1 : ((gaborResponse kR (cvt img)).flatten.isEmpty = true ∨
        (gaborResponse kI (cvt img)).flatten.isEmpty = true)
    · rw [if_pos h1]
    · rw [if_neg h1, if_pos hmm]
  refine ⟨?_, p2, ?_⟩
  · rintro ⟨c, hne, hrow⟩
    exact p2 (listMin_eq_listMax_of_const
      (gaborMag_const_mem hne hrow kR kI sqrtQ))
  · intro hR hI hmm
    have hcond : ¬((gaborResponse kR (cvt img)).flatten.isEmpty = true ∨
        (gaborResponse kI (cvt img)).flatten.isEmpty = true) := by
      simp [hR, hI]
    refine ⟨by rw [unf, if_neg hcond, if_neg hmm], ?_⟩
    intro v hv
    obtain ⟨row, hrowm, hvm⟩ := List.mem_flatten.mp hv
    obtain ⟨r0, _, rfl⟩ := List.mem_map.mp hrowm
    obtain ⟨q, _, rfl⟩ := List.mem_map.mp hvm
    exact stretch255_le_255 _ _ _

theorem gaborRespEvalR : gaborResponse [((0 : ℤ), (0 : ℤ), (1 : ℚ))] [[0, 1]] =
    [[0, 1]] := by
  have h0 : extendReflect [[0, 1]] 0 0 = 0 := by
    norm_num [extendReflect, reflectIdx]
  have h1 : extendReflect [[0, 1]] 0 1 = 1 := by
    norm_num [extendReflect, reflectIdx]
  unfold gaborResponse
  rw [show List.range ([[0, 1]] : GrayImg).length = [0] from rfl,
    show List.range (([[0, 1]] : GrayImg).headD []).length = [0, 1] from rfl]
  simp [convolveAt, h0, h1]

theorem gaborRespEvalI : gaborResponse [((0 : ℤ), (0 : ℤ), (0 : ℚ))] [[0, 1]] =
    [[0, 0]] := by
  unfold gaborResponse
  rw [show List.range ([[0, 1]] : GrayImg).length = [0] from rfl,
    show List.range (([[0, 1]] : GrayImg).headD []).length = [0, 1] from rfl]
  simp [convolveAt]

theorem gaborMagEval : gaborMag [((0 : ℤ), (0 : ℤ), (1 : ℚ))]
    [((0 : ℤ), (0 : ℤ), (0 : ℚ))] (fun q => q) [[0, 1]] = [[0, 1]] := by
  rw [gaborMag, gaborRespEvalR, gaborRespEvalI]
  norm_num

/-- Witness for C5: a perfectly uniform 2×2 grayscale input (all samples 5)
yields the unavailable marker for an arbitrary kernel pair; a concrete
non-uniform 1×2 input with one-tap kernels has a non-degenerate magnitude
plane and yields a normalized buffer. -/
theorem gabor_degenerate_and_normalized_witness :
    perform_gabor_filtering (fun _ => [[5, 5], [5, 5]]) [((0 : ℤ), (0 : ℤ), (2 : ℚ))]
      [((0 : ℤ), (0 : ℤ), (1 : ℚ))] (fun q => q) (some []) = none
    ∧ (perform_gabor_filtering (fun _ => [[0, 1]]) [((0 : ℤ), (0 : ℤ), (1 : ℚ))]
      [((0 : ℤ), (0 : ℤ), (0 : ℚ))] (fun q => q) (some [])).isSome = true := by
  constructor
  · exact (gabor_degenerate_and_normalized (fun _ => [[5, 5], [5, 5]])
      [((0 : ℤ), (0 : ℤ), (2 : ℚ))] [((0 : ℤ), (0 : ℤ), (1 : ℚ))]
      (fun q => q) []).1 ⟨5, by decide, by decide⟩
  · have h := (gabor_degenerate_and_normalized (fun _ => [[0, 1]])
      [((0 : ℤ), (0 : ℤ), (1 : ℚ))] [((0 : ℤ), (0 : ℤ), (0 : ℚ))]
      (fun q => q) []).2.2 rfl rfl
      (by rw [gaborMagEval]; norm_num [listMin, listMax])
    rw [h.1]
    rfl
